import Mathlib

/-!
Shallow embedding of `src/salary_accounting.py` (repository
MichAdebayo/salary_brief) and proofs about its salary-calculation and
statistics-aggregation core.

Modelling conventions:
* A Python employee dictionary becomes the structure `EmpRec`; every field is
  an `Option`, since a key may be absent from the dictionary.  The wage fields
  are read with `Option.getD 0`, mirroring `dict.get(key, 0)` in the source;
  `name` and `job` are read with direct indexing, which raises `KeyError` when
  the key is absent, so the calculator is `Except`-valued.
* Python numbers (int / float) are modelled by `ℚ` with exact arithmetic;
  `int(x)` is truncation toward zero (`ratTrunc`).
* A Python dict (insertion-ordered) becomes an association list
  `List (String × _)`.
* The in-place mutation `employee_details.update({"monthly_salary": ...})` at
  line 52 of the source is modelled by state passing: the calculator returns
  the updated roster together with its output mapping.
-/

set_option maxRecDepth 8000

deriving instance DecidableEq for Except

/-- An employee dictionary as consumed by `calculate_monthly_salaries`
(lines 35-57 of `salary_accounting.py`).  Every key may be absent.  The
`monthly_salary` slot holds the annotation written by line 52, if present. -/
structure EmpRec where
  name : Option String
  job : Option String
  hourly_rate : Option ℚ
  weekly_hours_worked : Option ℚ
  contract_hours : Option ℚ
  monthly_salary : Option ℚ
deriving DecidableEq, Repr

/-- An output employee record of the calculator (lines 55-57):
keys `name`, `job` and the truncated `monthly_salary`. -/
structure EmployeeSalary where
  name : String
  job : String
  monthly_salary : ℤ
deriving DecidableEq, Repr

/-- Input roster: subsidiary name -> list of employee dictionaries
(insertion-ordered Python dict as an association list). -/
abbrev Roster := List (String × List EmpRec)

/-- Calculator output / aggregator input: subsidiary name -> employee list. -/
abbrev SalaryMap := List (String × List EmployeeSalary)

/-- Python `int(q)`: truncation toward zero. -/
def ratTrunc (q : ℚ) : ℤ := if 0 ≤ q then ⌊q⌋ else ⌈q⌉

/-- The monthly-salary formula of lines 38-49: wage fields default to 0 via
`.get(key, 0)`; no overtime when `weekly_hours_worked <= contract_hours`,
otherwise overtime hours are paid at 1.5 times the hourly rate; the weekly
figure is projected to a 4-week month. -/
def employeeSalaryFor (employee_details : EmpRec) : ℚ :=
  let hourly_rate := employee_details.hourly_rate.getD 0
  let weekly_hours_worked := employee_details.weekly_hours_worked.getD 0
  let contract_hours := employee_details.contract_hours.getD 0
  if weekly_hours_worked ≤ contract_hours then
    weekly_hours_worked * hourly_rate * 4
  else
    let overtime_worked := weekly_hours_worked - contract_hours
    let overtime_salary := overtime_worked * hourly_rate * (3 / 2)
    let contract_salary := contract_hours * hourly_rate
    (contract_salary + overtime_salary) * 4

/-- One iteration of the inner loop (lines 35-57): compute the salary,
annotate the input dictionary with it (line 52), then build the output record
by indexing `['name']` and `['job']` (lines 55-56), which raises `KeyError`
when either key is absent, and `int(...)` of the annotated salary (line 57). -/
def processEmployee (employee_details : EmpRec) : Except String (EmpRec × EmployeeSalary) :=
  let m := employeeSalaryFor employee_details
  let annotated : EmpRec := { employee_details with monthly_salary := some m }
  match annotated.name, annotated.job with
  | some n, some j => .ok (annotated, ⟨n, j, ratTrunc m⟩)
  | _, _ => .error "KeyError"

/-- The inner loop over one subsidiary's personnel list, threading the
mutated dictionaries and accumulating `employee_list`. -/
def processPersonnel : List EmpRec → Except String (List EmpRec × List EmployeeSalary)
  | [] => .ok ([], [])
  | e :: es =>
    match processEmployee e with
    | .error msg => .error msg
    | .ok (e1, s) =>
      match processPersonnel es with
      | .error msg => .error msg
      | .ok (es1, ss) => .ok (e1 :: es1, s :: ss)

/-- `calculate_monthly_salaries` (lines 1-62): the outer loop over
subsidiaries.  Returns the updated input roster (its dictionaries annotated in
place by line 52) together with `employee_details_per_subsidiary`. -/
def calculate_monthly_salaries : Roster → Except String (Roster × SalaryMap)
  | [] => .ok ([], [])
  | (nm, personnel) :: rest =>
    match processPersonnel personnel with
    | .error msg => .error msg
    | .ok (p1, ss) =>
      match calculate_monthly_salaries rest with
      | .error msg => .error msg
      | .ok (rest1, out) => .ok ((nm, p1) :: rest1, (nm, ss) :: out)

/-- Python `max` of a list (meaningful only on non-empty lists, as called). -/
def listMax (l : List ℤ) : ℤ := l.max?.getD 0

/-- Python `min` of a list (meaningful only on non-empty lists, as called). -/
def listMin (l : List ℤ) : ℤ := l.min?.getD 0

/-- Output record of `global_company_statistics` (keys of lines 95-105). -/
structure SalaryStatistics where
  average_salary : ℚ
  highest_salary : ℤ
  lowest_salary : ℤ
deriving DecidableEq, Repr

/-- The salary extraction `[employee['monthly_salary'] for employee in ...]`
shared by both aggregators (lines 90-94 and 140-142). -/
def salariesOf (l : List EmployeeSalary) : List ℤ :=
  l.map (fun e => e.monthly_salary)

/-- The flattened salary list comprehension of lines 90-94: all
`monthly_salary` values across every subsidiary, in iteration order. -/
def allSalaries (salary_data : SalaryMap) : List ℤ :=
  (salary_data.map (fun p => salariesOf p.2)).flatten

/-- `global_company_statistics` (lines 65-105): mean, max and min of the
flattened salary list when it is non-empty (truthy), otherwise the
zero-valued record. -/
def global_company_statistics (salary_data : SalaryMap) : SalaryStatistics :=
  let all_salaries := allSalaries salary_data
  if all_salaries = [] then
    { average_salary := 0, highest_salary := 0, lowest_salary := 0 }
  else
    { average_salary := (all_salaries.sum : ℚ) / all_salaries.length
      highest_salary := listMax all_salaries
      lowest_salary := listMin all_salaries }

/-- Output record of `subsidiary_company_statistics` (keys of lines
143-148): statistics plus the subsidiary's own employee list. -/
structure SubsidiaryStatistics where
  average_salary : ℚ
  highest_salary : ℤ
  lowest_salary : ℤ
  employee_salary : List EmployeeSalary
deriving DecidableEq, Repr

/-- `subsidiary_company_statistics` (lines 108-150): one record per
subsidiary whose salary list is non-empty (truthy walrus test, line 140);
empty subsidiaries produce no entry. -/
def subsidiary_company_statistics (salary_data : SalaryMap) :
    List (String × SubsidiaryStatistics) :=
  salary_data.filterMap (fun p =>
    let all_employee_salaries : List ℤ := salariesOf p.2
    if all_employee_salaries = [] then none
    else some (p.1,
      { average_salary := (all_employee_salaries.sum : ℚ) / all_employee_salaries.length
        highest_salary := listMax all_employee_salaries
        lowest_salary := listMin all_employee_salaries
        employee_salary := p.2 }))

example : employeeSalaryFor ⟨some "a", some "b", some 20, some 35, some 40, none⟩ = 2800 := by
  norm_num [employeeSalaryFor]

example : employeeSalaryFor ⟨some "a", some "b", some 20, some 45, some 40, none⟩ = 3800 := by
  norm_num [employeeSalaryFor]

example :
    calculate_monthly_salaries [("S", [⟨some "a", some "b", some 2, some 5, some 4, none⟩])] =
      .ok ([("S", [⟨some "a", some "b", some 2, some 5, some 4, some 44⟩])],
        [("S", [⟨"a", "b", 44⟩])]) := by
  with_unfolding_all decide

example :
    global_company_statistics [("S", [⟨"a", "b", 24⟩, ⟨"c", "d", 44⟩]), ("T", [])] =
      { average_salary := 34, highest_salary := 44, lowest_salary := 24 } := by
  with_unfolding_all decide

example :
    subsidiary_company_statistics [("S", [⟨"a", "b", 24⟩, ⟨"c", "d", 44⟩]), ("T", [])] =
      [("S", { average_salary := 34, highest_salary := 44, lowest_salary := 24,
               employee_salary := [⟨"a", "b", 24⟩, ⟨"c", "d", 44⟩] })] := by
  with_unfolding_all decide

/-! ## Structural lemmas about the calculator -/

/-- `processEmployee` succeeds exactly when the dictionary has both `name`
and `job`, and then returns the annotated dictionary together with the
truncated-salary output record. -/
theorem processEmployee_ok_iff {e : EmpRec} {r : EmpRec × EmployeeSalary} :
    processEmployee e = .ok r ↔
      ∃ n j, e.name = some n ∧ e.job = some j ∧
        r = ({ e with monthly_salary := some (employeeSalaryFor e) },
             ⟨n, j, ratTrunc (employeeSalaryFor e)⟩) := by
  cases he : e.name <;> cases hj : e.job <;>
    simp [processEmployee, he, hj, eq_comm]

/-- Pointwise description of a successful inner loop: both result lists have
the input's length, every input dictionary has `name` and `job`, the updated
list annotates each dictionary with its computed salary, and the output list
holds the corresponding truncated-salary records. -/
theorem processPersonnel_ok_spec {es es1 : List EmpRec} {ss : List EmployeeSalary}
    (h : processPersonnel es = .ok (es1, ss)) :
    es1.length = es.length ∧ ss.length = es.length ∧
      ∀ (i : ℕ) (e : EmpRec), es[i]? = some e →
        ∃ n j, e.name = some n ∧ e.job = some j ∧
          es1[i]? = some { e with monthly_salary := some (employeeSalaryFor e) } ∧
          ss[i]? = some ⟨n, j, ratTrunc (employeeSalaryFor e)⟩ := by
  induction es generalizing es1 ss with
  | nil =>
    simp only [processPersonnel, Except.ok.injEq, Prod.mk.injEq] at h
    obtain ⟨h1, h2⟩ := h
    subst h1; subst h2
    simp
  | cons e es ih =>
    rw [processPersonnel] at h
    cases h1 : processEmployee e with
    | error msg => rw [h1] at h; exact absurd h (by simp)
    | ok r =>
      rw [h1] at h
      cases h2 : processPersonnel es with
      | error msg => rw [h2] at h; exact absurd h (by simp)
      | ok r2 =>
        rw [h2] at h
        obtain ⟨r2a, r2b⟩ := r2
        obtain ⟨ra, rb⟩ := r
        simp only [Except.ok.injEq, Prod.mk.injEq] at h
        obtain ⟨h3, h4⟩ := h
        subst h3; subst h4
        obtain ⟨len1, len2, hpt⟩ := ih h2
        obtain ⟨n, j, hn, hj, hr⟩ := processEmployee_ok_iff.mp h1
        simp only [Prod.mk.injEq] at hr
        obtain ⟨hra, hrb⟩ := hr
        subst hra; subst hrb
        refine ⟨by simp [len1], by simp [len2], ?_⟩
        intro i e' he'
        cases i with
        | zero =>
          simp only [List.getElem?_cons_zero, Option.some.injEq] at he'
          subst he'
          exact ⟨n, j, hn, hj, by simp, by simp⟩
        | succ i =>
          simp only [List.getElem?_cons_succ] at he' ⊢
          exact hpt i e' he'

/-- Pointwise description of a successful run of the whole calculator: both
the updated roster and the output mapping have one entry per input
subsidiary, under the input's key and in the input's position, and each
personnel list was processed by the inner loop. -/
theorem calculate_monthly_salaries_ok_spec {d d1 : Roster} {out : SalaryMap}
    (h : calculate_monthly_salaries d = .ok (d1, out)) :
    d1.length = d.length ∧ out.length = d.length ∧
      ∀ (i : ℕ) (p : String × List EmpRec), d[i]? = some p →
        ∃ p2 ss, d1[i]? = some (p.1, p2) ∧ out[i]? = some (p.1, ss) ∧
          processPersonnel p.2 = .ok (p2, ss) := by
  induction d generalizing d1 out with
  | nil =>
    simp only [calculate_monthly_salaries, Except.ok.injEq, Prod.mk.injEq] at h
    obtain ⟨h1, h2⟩ := h
    subst h1; subst h2
    simp
  | cons p rest ih =>
    obtain ⟨nm, personnel⟩ := p
    rw [calculate_monthly_salaries] at h
    cases h1 : processPersonnel personnel with
    | error msg => rw [h1] at h; exact absurd h (by simp)
    | ok r =>
      rw [h1] at h
      cases h2 : calculate_monthly_salaries rest with
      | error msg => rw [h2] at h; exact absurd h (by simp)
      | ok r2 =>
        rw [h2] at h
        obtain ⟨r2a, r2b⟩ := r2
        obtain ⟨ra, rb⟩ := r
        simp only [Except.ok.injEq, Prod.mk.injEq] at h
        obtain ⟨h3, h4⟩ := h
        subst h3; subst h4
        obtain ⟨len1, len2, hpt⟩ := ih h2
        refine ⟨by simp [len1], by simp [len2], ?_⟩
        intro i q hq
        cases i with
        | zero =>
          simp only [List.getElem?_cons_zero, Option.some.injEq] at hq
          subst hq
          exact ⟨ra, rb, by simp, by simp, h1⟩
        | succ i =>
          simp only [List.getElem?_cons_succ] at hq ⊢
          exact hpt i q hq

/-! ## Lemmas about `listMax`, `listMin` and the average -/

/-- On a non-empty list, Python's `max` returns a member that bounds every
member from above. -/
theorem listMax_spec {l : List ℤ} (h : l ≠ []) :
    listMax l ∈ l ∧ ∀ x ∈ l, x ≤ listMax l := by
  cases hm : l.max? with
  | none => exact absurd (List.max?_eq_none_iff.mp hm) h
  | some a =>
    have ha : listMax l = a := by simp [listMax, hm]
    rw [ha]
    refine ⟨List.max?_mem (fun a b => max_choice a b) hm, ?_⟩
    intro x hx
    exact (List.max?_le_iff (fun a b c => max_le_iff) hm).mp le_rfl x hx

/-- On a non-empty list, Python's `min` returns a member that bounds every
member from below. -/
theorem listMin_spec {l : List ℤ} (h : l ≠ []) :
    listMin l ∈ l ∧ ∀ x ∈ l, listMin l ≤ x := by
  cases hm : l.min? with
  | none => exact absurd (List.min?_eq_none_iff.mp hm) h
  | some a =>
    have ha : listMin l = a := by simp [listMin, hm]
    rw [ha]
    refine ⟨List.min?_mem (fun a b => min_choice a b) hm, ?_⟩
    intro x hx
    exact (List.le_min?_iff (fun a b c => le_min_iff) hm).mp le_rfl x hx

/-- The arithmetic mean of a non-empty integer list lies between its min
and its max. -/
theorem avg_between {l : List ℤ} (h : l ≠ []) :
    (listMin l : ℚ) ≤ (l.sum : ℚ) / l.length ∧
      (l.sum : ℚ) / l.length ≤ (listMax l : ℚ) := by
  have hlen : 0 < (l.length : ℚ) := by
    exact_mod_cast List.length_pos.mpr h
  have hub : l.sum ≤ l.length • listMax l :=
    List.sum_le_card_nsmul l _ (listMax_spec h).2
  have hlb : l.length • listMin l ≤ l.sum :=
    List.card_nsmul_le_sum l _ (listMin_spec h).2
  rw [nsmul_eq_mul] at hub hlb
  constructor
  · rw [le_div_iff₀ hlen]
    have : ((l.length : ℤ) * listMin l : ℚ) ≤ (l.sum : ℚ) := by exact_mod_cast hlb
    push_cast at this ⊢
    linarith
  · rw [div_le_iff₀ hlen]
    have : ((l.sum : ℤ) : ℚ) ≤ ((l.length : ℤ) * listMax l : ℚ) := by exact_mod_cast hub
    push_cast at this ⊢
    linarith

/-! ## Lemmas about the aggregators -/

/-- Membership in the flattened salary list. -/
theorem mem_allSalaries {m : SalaryMap} {x : ℤ} :
    x ∈ allSalaries m ↔ ∃ p ∈ m, x ∈ salariesOf p.2 := by
  simp only [allSalaries, List.mem_flatten, List.mem_map]
  constructor
  · rintro ⟨l, ⟨p, hp, rfl⟩, hx⟩
    exact ⟨p, hp, hx⟩
  · rintro ⟨p, hp, hx⟩
    exact ⟨salariesOf p.2, ⟨p, hp, rfl⟩, hx⟩

/-- The flattened salary list is empty exactly when every subsidiary's
employee list is empty. -/
theorem allSalaries_eq_nil_iff {m : SalaryMap} :
    allSalaries m = [] ↔ ∀ p ∈ m, p.2 = [] := by
  simp only [allSalaries, List.flatten_eq_nil_iff, List.mem_map]
  constructor
  · intro h p hp
    have := h (salariesOf p.2) ⟨p, hp, rfl⟩
    simpa [salariesOf] using this
  · rintro h l ⟨p, hp, rfl⟩
    simp [salariesOf, h p hp]

/-- Value of `global_company_statistics` on a non-empty flattened list. -/
theorem global_company_statistics_of_ne_nil {m : SalaryMap}
    (h : allSalaries m ≠ []) :
    global_company_statistics m =
      { average_salary := ((allSalaries m).sum : ℚ) / (allSalaries m).length
        highest_salary := listMax (allSalaries m)
        lowest_salary := listMin (allSalaries m) } := by
  simp [global_company_statistics, h]

/-- Value of `global_company_statistics` on an empty flattened list. -/
theorem global_company_statistics_of_nil {m : SalaryMap}
    (h : allSalaries m = []) :
    global_company_statistics m =
      { average_salary := 0, highest_salary := 0, lowest_salary := 0 } := by
  simp [global_company_statistics, h]

/-- Membership in the per-subsidiary output: exactly the input entries with a
non-empty employee list, mapped to their statistics record. -/
theorem mem_subsidiary_company_statistics {m : SalaryMap}
    {q : String × SubsidiaryStatistics} :
    q ∈ subsidiary_company_statistics m ↔
      ∃ p ∈ m, p.2 ≠ [] ∧
        q = (p.1,
          { average_salary := ((salariesOf p.2).sum : ℚ) / (salariesOf p.2).length
            highest_salary := listMax (salariesOf p.2)
            lowest_salary := listMin (salariesOf p.2)
            employee_salary := p.2 }) := by
  simp only [subsidiary_company_statistics, List.mem_filterMap]
  constructor
  · rintro ⟨p, hp, hf⟩
    by_cases hnil : salariesOf p.2 = []
    · simp [hnil] at hf
    · simp only [hnil, if_false, Option.some.injEq] at hf
      have hp2 : p.2 ≠ [] := by
        intro hc
        exact hnil (by simp [salariesOf, hc])
      exact ⟨p, hp, hp2, hf.symm⟩
  · rintro ⟨p, hp, hp2, hq⟩
    have hnil : salariesOf p.2 ≠ [] := by
      simpa [salariesOf] using hp2
    exact ⟨p, hp, by simp only [hnil, if_false]; exact congrArg some hq.symm⟩

/-! ## Concrete data used by witnesses and counterexamples -/

/-- Employee below contract hours: salary 3 * 2 * 4 = 24. -/
def exNoOT : EmpRec := ⟨some "Ann", some "Dev", some 2, some 3, some 4, none⟩

/-- Employee with one overtime hour: salary (4*2 + 1*2*1.5) * 4 = 44. -/
def exOT : EmpRec := ⟨some "Ben", some "Ops", some 2, some 5, some 4, none⟩

/-- A roster with one populated subsidiary and one empty subsidiary. -/
def exRoster : Roster := [("SubA", [exNoOT, exOT]), ("SubB", [])]

/-- The calculator's output mapping for `exRoster`. -/
def exMap : SalaryMap := [("SubA", [⟨"Ann", "Dev", 24⟩, ⟨"Ben", "Ops", 44⟩]), ("SubB", [])]

/-! ## Claims -/

/-- Claim C2: for every salary map, `global_company_statistics` returns the
arithmetic mean (sum divided by count), the maximum and the minimum of the
salaries flattened across every subsidiary, and
`subsidiary_company_statistics` returns, for each subsidiary with at least
one employee, the mean, maximum and minimum of that subsidiary's own
salaries together with that subsidiary's employee list in calculator-output
order.  Mean is characterized by `average * count = sum`; maximum and
minimum by membership plus being an upper (lower) bound. -/
theorem C2_stats_are_mean_max_min (m : SalaryMap) :
    (allSalaries m ≠ [] →
      (global_company_statistics m).average_salary * ((allSalaries m).length : ℚ) =
          ((allSalaries m).sum : ℚ) ∧
        (global_company_statistics m).highest_salary ∈ allSalaries m ∧
        (∀ x ∈ allSalaries m, x ≤ (global_company_statistics m).highest_salary) ∧
        (global_company_statistics m).lowest_salary ∈ allSalaries m ∧
        (∀ x ∈ allSalaries m, (global_company_statistics m).lowest_salary ≤ x)) ∧
    (∀ p ∈ m, p.2 ≠ [] →
      ∃ st, (p.1, st) ∈ subsidiary_company_statistics m ∧
        st.employee_salary = p.2 ∧
        st.average_salary * ((salariesOf p.2).length : ℚ) = ((salariesOf p.2).sum : ℚ) ∧
        st.highest_salary ∈ salariesOf p.2 ∧
        (∀ x ∈ salariesOf p.2, x ≤ st.highest_salary) ∧
        st.lowest_salary ∈ salariesOf p.2 ∧
        (∀ x ∈ salariesOf p.2, st.lowest_salary ≤ x)) := by
  constructor
  · intro h
    rw [global_company_statistics_of_ne_nil h]
    have hlen : ((allSalaries m).length : ℚ) ≠ 0 :=
      Nat.cast_ne_zero.mpr (List.length_pos.mpr h).ne'
    refine ⟨div_mul_cancel₀ _ hlen, (listMax_spec h).1, (listMax_spec h).2,
      (listMin_spec h).1, (listMin_spec h).2⟩
  · intro p hp hne
    have hs : salariesOf p.2 ≠ [] := by simpa [salariesOf] using hne
    have hlen : ((salariesOf p.2).length : ℚ) ≠ 0 :=
      Nat.cast_ne_zero.mpr (List.length_pos.mpr hs).ne'
    refine ⟨_, mem_subsidiary_company_statistics.mpr ⟨p, hp, hne, rfl⟩, rfl,
      div_mul_cancel₀ _ hlen, (listMax_spec hs).1, (listMax_spec hs).2,
      (listMin_spec hs).1, (listMin_spec hs).2⟩

/-- Witness for C2 at the concrete map `exMap`. -/
theorem C2_stats_are_mean_max_min_witness :
    ((global_company_statistics exMap).average_salary * ((allSalaries exMap).length : ℚ) =
        ((allSalaries exMap).sum : ℚ) ∧
      (global_company_statistics exMap).highest_salary ∈ allSalaries exMap) ∧
    (∃ st, (("SubA" : String), st) ∈ subsidiary_company_statistics exMap ∧
      st.employee_salary = [⟨"Ann", "Dev", 24⟩, ⟨"Ben", "Ops", 44⟩]) := by
  have h := C2_stats_are_mean_max_min exMap
  have h1 := h.1 (by with_unfolding_all decide)
  have h2 := h.2 ("SubA", [⟨"Ann", "Dev", 24⟩, ⟨"Ben", "Ops", 44⟩])
    (by with_unfolding_all decide) (by with_unfolding_all decide)
  obtain ⟨st, hst, hemp, _⟩ := h2
  exact ⟨⟨h1.1, h1.2.1⟩, ⟨st, hst, hemp⟩⟩

/-- Claim C3: every statistics record produced over a non-empty salary set
satisfies `lowest_salary <= average_salary <= highest_salary`, both for the
global record and for every per-subsidiary record (whose underlying set is
non-empty by construction). -/
theorem C3_lowest_le_average_le_highest (m : SalaryMap) :
    (allSalaries m ≠ [] →
      ((global_company_statistics m).lowest_salary : ℚ) ≤
          (global_company_statistics m).average_salary ∧
        (global_company_statistics m).average_salary ≤
          ((global_company_statistics m).highest_salary : ℚ)) ∧
    (∀ q ∈ subsidiary_company_statistics m,
      (q.2.lowest_salary : ℚ) ≤ q.2.average_salary ∧
        q.2.average_salary ≤ (q.2.highest_salary : ℚ)) := by
  constructor
  · intro h
    rw [global_company_statistics_of_ne_nil h]
    exact avg_between h
  · intro q hq
    obtain ⟨p, _, hne, rfl⟩ := mem_subsidiary_company_statistics.mp hq
    have hs : salariesOf p.2 ≠ [] := by simpa [salariesOf] using hne
    exact avg_between hs

/-- Witness for C3 at the concrete map `exMap`. -/
theorem C3_lowest_le_average_le_highest_witness :
    ((global_company_statistics exMap).lowest_salary : ℚ) ≤
        (global_company_statistics exMap).average_salary ∧
      (global_company_statistics exMap).average_salary ≤
        ((global_company_statistics exMap).highest_salary : ℚ) :=
  (C3_lowest_le_average_le_highest exMap).1 (by with_unfolding_all decide)

/-- Claim C4: a salary map with no employees anywhere yields the zero-valued
global record instead of a division-by-zero failure, and the per-subsidiary
output keeps exactly the keys of subsidiaries with a non-empty employee
list, in order — empty subsidiaries are omitted even though present in the
input. -/
theorem C4_empty_handling (m : SalaryMap) :
    ((∀ p ∈ m, p.2 = []) →
      global_company_statistics m =
        { average_salary := 0, highest_salary := 0, lowest_salary := 0 }) ∧
    (subsidiary_company_statistics m).map Prod.fst =
      (m.filter (fun p => !p.2.isEmpty)).map Prod.fst := by
  constructor
  · intro h
    exact global_company_statistics_of_nil (allSalaries_eq_nil_iff.mpr h)
  · induction m with
    | nil => rfl
    | cons p rest ih =>
      by_cases hnil : p.2 = []
      · have hs : salariesOf p.2 = [] := by simp [salariesOf, hnil]
        simp only [subsidiary_company_statistics, List.filterMap_cons, hs, if_true,
          List.filter_cons, hnil, List.isEmpty_nil, Bool.not_true]
        simpa [subsidiary_company_statistics, hnil] using ih
      · have hs : salariesOf p.2 ≠ [] := by simpa [salariesOf] using hnil
        have hb : (!p.2.isEmpty) = true := by
          simp [List.isEmpty_iff, hnil]
        simp only [subsidiary_company_statistics, List.filterMap_cons, hs, if_false,
          List.filter_cons, hb, List.map_cons]
        exact congrArg (List.cons p.1) (by simpa [subsidiary_company_statistics] using ih)

/-- Witness for C4: a fully empty roster produces the zero record, and on
`exMap` only the populated subsidiary `SubA` survives. -/
theorem C4_empty_handling_witness :
    global_company_statistics [("A", []), ("B", [])] =
        { average_salary := 0, highest_salary := 0, lowest_salary := 0 } ∧
      (subsidiary_company_statistics exMap).map Prod.fst = ["SubA"] := by
  constructor
  · exact (C4_empty_handling [("A", []), ("B", [])]).1 (by with_unfolding_all decide)
  · exact ((C4_empty_handling exMap).2).trans (by with_unfolding_all decide)

/-- Counterexample to claim C9: one employee with salary 0 gives a non-empty
salary set whose statistics are nevertheless all 0. -/
theorem C9_counterexample :
    allSalaries [("S", [⟨"Zed", "Tmp", 0⟩])] ≠ [] ∧
      global_company_statistics [("S", [⟨"Zed", "Tmp", 0⟩])] =
        { average_salary := 0, highest_salary := 0, lowest_salary := 0 } := by
  with_unfolding_all decide

/-- Claim C9 as amended: the three statistics are all 0 when the underlying
set is empty, and on a non-empty set they are all 0 exactly when every
salary in the set is 0. -/
theorem C9_all_zero_iff (m : SalaryMap) :
    (allSalaries m = [] →
      global_company_statistics m =
        { average_salary := 0, highest_salary := 0, lowest_salary := 0 }) ∧
    (allSalaries m ≠ [] →
      (global_company_statistics m =
          { average_salary := 0, highest_salary := 0, lowest_salary := 0 } ↔
        ∀ x ∈ allSalaries m, x = 0)) := by
  refine ⟨global_company_statistics_of_nil, ?_⟩
  intro h
  rw [global_company_statistics_of_ne_nil h]
  simp only [SalaryStatistics.mk.injEq]
  constructor
  · rintro ⟨-, hmax, hmin⟩ x hx
    have h1 := (listMax_spec h).2 x hx
    have h2 := (listMin_spec h).2 x hx
    omega
  · intro hall
    have hmax : listMax (allSalaries m) = 0 := hall _ (listMax_spec h).1
    have hmin : listMin (allSalaries m) = 0 := hall _ (listMin_spec h).1
    have hsum : (allSalaries m).sum = 0 := List.sum_eq_zero hall
    refine ⟨?_, hmax, hmin⟩
    rw [hsum]
    simp

/-- Witness for C9 at the all-zero singleton map: the equivalence applies
and both sides hold. -/
theorem C9_all_zero_iff_witness :
    ∀ x ∈ allSalaries [("S", [⟨"Zed", "Tmp", (0 : ℤ)⟩])], x = 0 :=
  ((C9_all_zero_iff [("S", [⟨"Zed", "Tmp", 0⟩])]).2 (by with_unfolding_all decide)).mp
    (by with_unfolding_all decide)

/-- Claim C10: when the map holds at least one employee, the global maximum
is the maximum of the per-subsidiary `highest_salary` values and the global
minimum is the minimum of the per-subsidiary `lowest_salary` values:
grouping into subsidiaries does not change the extremes. -/
theorem C10_global_extremes_from_subsidiaries (m : SalaryMap)
    (h : allSalaries m ≠ []) :
    (global_company_statistics m).highest_salary =
      listMax ((subsidiary_company_statistics m).map (fun q => q.2.highest_salary)) ∧
    (global_company_statistics m).lowest_salary =
      listMin ((subsidiary_company_statistics m).map (fun q => q.2.lowest_salary)) := by
  rw [global_company_statistics_of_ne_nil h]
  have key : ∀ x ∈ allSalaries m, ∃ p ∈ m, p.2 ≠ [] ∧ x ∈ salariesOf p.2 := by
    intro x hx
    obtain ⟨p, hp, hxp⟩ := mem_allSalaries.mp hx
    exact ⟨p, hp, fun hc => by simp [salariesOf, hc] at hxp, hxp⟩
  -- the highest-salary half
  have hmax : listMax (allSalaries m) =
      listMax ((subsidiary_company_statistics m).map (fun q => q.2.highest_salary)) := by
    obtain ⟨x0, hx0⟩ := List.exists_mem_of_ne_nil _ h
    obtain ⟨p0, hp0, hp0ne, hx0p⟩ := key x0 hx0
    have hM0 : listMax (salariesOf p0.2) ∈
        (subsidiary_company_statistics m).map (fun q => q.2.highest_salary) :=
      List.mem_map.mpr ⟨_, mem_subsidiary_company_statistics.mpr ⟨p0, hp0, hp0ne, rfl⟩, rfl⟩
    have hMne : (subsidiary_company_statistics m).map (fun q => q.2.highest_salary) ≠ [] :=
      List.ne_nil_of_mem hM0
    apply le_antisymm
    · -- every global salary is below some subsidiary max, hence below max of maxes
      have hAmem := (listMax_spec h).1
      obtain ⟨p, hp, hpne, hpmem⟩ := key _ hAmem
      have hy : listMax (salariesOf p.2) ∈
          (subsidiary_company_statistics m).map (fun q => q.2.highest_salary) :=
        List.mem_map.mpr ⟨_, mem_subsidiary_company_statistics.mpr ⟨p, hp, hpne, rfl⟩, rfl⟩
      have hps : salariesOf p.2 ≠ [] := by simpa [salariesOf] using hpne
      exact le_trans ((listMax_spec hps).2 _ hpmem) ((listMax_spec hMne).2 _ hy)
    · -- every subsidiary max is a global salary, hence below the global max
      have hMmem := (listMax_spec hMne).1
      obtain ⟨q, hq, hqe⟩ := List.mem_map.mp hMmem
      obtain ⟨p, hp, hpne, rfl⟩ := mem_subsidiary_company_statistics.mp hq
      have hps : salariesOf p.2 ≠ [] := by simpa [salariesOf] using hpne
      have : listMax (salariesOf p.2) ∈ allSalaries m :=
        mem_allSalaries.mpr ⟨p, hp, (listMax_spec hps).1⟩
      rw [← hqe]
      exact (listMax_spec h).2 _ this
  -- the lowest-salary half, mirrored
  have hmin : listMin (allSalaries m) =
      listMin ((subsidiary_company_statistics m).map (fun q => q.2.lowest_salary)) := by
    obtain ⟨x0, hx0⟩ := List.exists_mem_of_ne_nil _ h
    obtain ⟨p0, hp0, hp0ne, hx0p⟩ := key x0 hx0
    have hM0 : listMin (salariesOf p0.2) ∈
        (subsidiary_company_statistics m).map (fun q => q.2.lowest_salary) :=
      List.mem_map.mpr ⟨_, mem_subsidiary_company_statistics.mpr ⟨p0, hp0, hp0ne, rfl⟩, rfl⟩
    have hMne : (subsidiary_company_statistics m).map (fun q => q.2.lowest_salary) ≠ [] :=
      List.ne_nil_of_mem hM0
    apply le_antisymm
    · -- every subsidiary min is a global salary, hence above the global min
      have hMmem := (listMin_spec hMne).1
      obtain ⟨q, hq, hqe⟩ := List.mem_map.mp hMmem
      obtain ⟨p, hp, hpne, rfl⟩ := mem_subsidiary_company_statistics.mp hq
      have hps : salariesOf p.2 ≠ [] := by simpa [salariesOf] using hpne
      have : listMin (salariesOf p.2) ∈ allSalaries m :=
        mem_allSalaries.mpr ⟨p, hp, (listMin_spec hps).1⟩
      rw [← hqe]
      exact (listMin_spec h).2 _ this
    · -- the global min lies in some subsidiary, so some subsidiary min is below it
      have hAmem := (listMin_spec h).1
      obtain ⟨p, hp, hpne, hpmem⟩ := key _ hAmem
      have hy : listMin (salariesOf p.2) ∈
          (subsidiary_company_statistics m).map (fun q => q.2.lowest_salary) :=
        List.mem_map.mpr ⟨_, mem_subsidiary_company_statistics.mpr ⟨p, hp, hpne, rfl⟩, rfl⟩
      have hps : salariesOf p.2 ≠ [] := by simpa [salariesOf] using hpne
      exact le_trans ((listMin_spec hMne).2 _ hy) ((listMin_spec hps).2 _ hpmem)
  exact ⟨hmax, hmin⟩

/-- Witness for C10 at the concrete map `exMap`. -/
theorem C10_global_extremes_from_subsidiaries_witness :
    (global_company_statistics exMap).highest_salary =
        listMax ((subsidiary_company_statistics exMap).map (fun q => q.2.highest_salary)) ∧
      (global_company_statistics exMap).lowest_salary =
        listMin ((subsidiary_company_statistics exMap).map (fun q => q.2.lowest_salary)) :=
  C10_global_extremes_from_subsidiaries exMap (by with_unfolding_all decide)

/-- Plumbing: a successful calculator run, restricted to one input record at
subsidiary position `i`, employee position `j`. -/
theorem calc_ok_record {d d1 : Roster} {out : SalaryMap}
    (h : calculate_monthly_salaries d = .ok (d1, out))
    {i : ℕ} {p : String × List EmpRec} (hp : d[i]? = some p)
    {j : ℕ} {e : EmpRec} (he : p.2[j]? = some e) :
    ∃ n jb p2 ss,
      e.name = some n ∧ e.job = some jb ∧
        d1[i]? = some (p.1, p2) ∧ out[i]? = some (p.1, ss) ∧
        p2[j]? = some { e with monthly_salary := some (employeeSalaryFor e) } ∧
        ss[j]? = some ⟨n, jb, ratTrunc (employeeSalaryFor e)⟩ := by
  obtain ⟨-, -, hpt⟩ := calculate_monthly_salaries_ok_spec h
  obtain ⟨p2, ss, hd1, hout, hpp⟩ := hpt i p hp
  obtain ⟨-, -, hpt2⟩ := processPersonnel_ok_spec hpp
  obtain ⟨n, jb, hn, hj, hp2, hss⟩ := hpt2 j e he
  exact ⟨n, jb, p2, ss, hn, hj, hd1, hout, hp2, hss⟩

/-- A record whose computed salary was negative and fractional: hourly rate
-1/4 with one overtime hour gives the computed value -7/2. -/
def exNegRec : EmpRec := ⟨some "Eve", some "QA", some (-(1 : ℚ)/4), some 3, some 2, none⟩

/-- Roster holding only `exNegRec`. -/
def exNegIn : Roster := [("S", [exNegRec])]

/-- The roster state after running the calculator on `exNegIn`. -/
def exNegUpd : Roster :=
  [("S", [⟨some "Eve", some "QA", some (-(1 : ℚ)/4), some 3, some 2, some (-(7 : ℚ)/2)⟩])]

/-- The calculator's output on `exNegIn`: `int(-3.5)` is -3. -/
def exNegOut : SalaryMap := [("S", [⟨"Eve", "QA", -3⟩])]

/-- Claim C5: every `monthly_salary` the calculator outputs is the truncation
toward zero of the exact computed value — the floor for non-negative values
and the ceiling for negative ones (fractional part discarded, not rounded,
also when the computed value is negative). -/
theorem C5_int_truncates_toward_zero {d d1 : Roster} {out : SalaryMap}
    (h : calculate_monthly_salaries d = .ok (d1, out))
    {i : ℕ} {p : String × List EmpRec} (hp : d[i]? = some p)
    {j : ℕ} {e : EmpRec} (he : p.2[j]? = some e) :
    ∃ entry, out[i]? = some entry ∧ entry.1 = p.1 ∧
      ∃ s, entry.2[j]? = some s ∧
        s.monthly_salary = ratTrunc (employeeSalaryFor e) ∧
        (0 ≤ employeeSalaryFor e → s.monthly_salary = ⌊employeeSalaryFor e⌋) ∧
        (employeeSalaryFor e < 0 → s.monthly_salary = ⌈employeeSalaryFor e⌉) := by
  obtain ⟨n, jb, p2, ss, hn, hj, hd1, hout, hp2, hss⟩ := calc_ok_record h hp he
  refine ⟨(p.1, ss), hout, rfl, ⟨n, jb, ratTrunc (employeeSalaryFor e)⟩, hss, rfl, ?_, ?_⟩
  · intro hpos
    simp [ratTrunc, hpos]
  · intro hneg
    simp [ratTrunc, not_le.mpr hneg]

/-- Witness for C5 on `exNegIn`: the computed value -7/2 is truncated to -3
(its ceiling), not floored to -4. -/
theorem C5_int_truncates_toward_zero_witness :
    ∃ entry, exNegOut[0]? = some entry ∧ entry.1 = "S" ∧
      ∃ s, entry.2[0]? = some s ∧
        s.monthly_salary = ratTrunc (employeeSalaryFor exNegRec) ∧
        (0 ≤ employeeSalaryFor exNegRec → s.monthly_salary = ⌊employeeSalaryFor exNegRec⌋) ∧
        (employeeSalaryFor exNegRec < 0 → s.monthly_salary = ⌈employeeSalaryFor exNegRec⌉) :=
  @C5_int_truncates_toward_zero exNegIn exNegUpd exNegOut
    (by with_unfolding_all decide)
    0 ("S", [exNegRec]) (by with_unfolding_all decide)
    0 exNegRec (by with_unfolding_all decide)

/-- Counterexample to claim C1 as stated: for `exNegRec` (hourly rate -1/4,
3 hours worked, 2 contract hours, so the overtime branch applies) the code
outputs `int(-3.5) = -3`, while the claim's floor formula demands
`floor(-3.5) = -4`. -/
theorem C1_counterexample :
    calculate_monthly_salaries exNegIn = .ok (exNegUpd, exNegOut) ∧
      exNegOut = [("S", [⟨"Eve", "QA", -3⟩])] ∧
      ¬ ((3 : ℚ) ≤ 2) ∧
      ((2 : ℚ) * (-(1 : ℚ)/4) + ((3 : ℚ) - 2) * (-(1 : ℚ)/4) * (3/2)) * 4 = -(7 : ℚ)/2 ∧
      (⌊-(7 : ℚ)/2⌋ : ℤ) = -4 ∧
      ((-3 : ℤ) ≠ -4) := by
  with_unfolding_all decide

/-- Claim C1 as amended: restricted to non-negative wage values (the data
model's stated domain, on which truncation toward zero and floor agree),
each output `monthly_salary` is the floor of the no-overtime formula
`weekly * rate * 4` when `weekly_hours_worked <= contract_hours`, and of the
overtime formula `(contract*rate + (weekly-contract)*rate*1.5) * 4`
otherwise; absent wage fields are treated as 0. -/
theorem C1_salary_formula (d d1 : Roster) (out : SalaryMap)
    (h : calculate_monthly_salaries d = .ok (d1, out))
    (i : ℕ) (p : String × List EmpRec) (hp : d[i]? = some p)
    (j : ℕ) (e : EmpRec) (he : p.2[j]? = some e)
    (hr0 : 0 ≤ e.hourly_rate.getD 0)
    (hw0 : 0 ≤ e.weekly_hours_worked.getD 0)
    (hc0 : 0 ≤ e.contract_hours.getD 0) :
    ∃ entry, out[i]? = some entry ∧ entry.1 = p.1 ∧
      ∃ s, entry.2[j]? = some s ∧
        (e.weekly_hours_worked.getD 0 ≤ e.contract_hours.getD 0 →
          s.monthly_salary =
            ⌊e.weekly_hours_worked.getD 0 * e.hourly_rate.getD 0 * 4⌋) ∧
        (¬ e.weekly_hours_worked.getD 0 ≤ e.contract_hours.getD 0 →
          s.monthly_salary =
            ⌊(e.contract_hours.getD 0 * e.hourly_rate.getD 0 +
                (e.weekly_hours_worked.getD 0 - e.contract_hours.getD 0) *
                  e.hourly_rate.getD 0 * (3/2)) * 4⌋) := by
  obtain ⟨n, jb, p2, ss, hn, hj, hd1, hout, hp2, hss⟩ := calc_ok_record h hp he
  refine ⟨(p.1, ss), hout, rfl, ⟨n, jb, ratTrunc (employeeSalaryFor e)⟩, hss, ?_, ?_⟩
  · intro hcond
    have hval : employeeSalaryFor e =
        e.weekly_hours_worked.getD 0 * e.hourly_rate.getD 0 * 4 := by
      simp [employeeSalaryFor, hcond]
    have hpos : (0 : ℚ) ≤
        e.weekly_hours_worked.getD 0 * e.hourly_rate.getD 0 * 4 :=
      mul_nonneg (mul_nonneg hw0 hr0) (by norm_num)
    simp [ratTrunc, hval, hpos]
  · intro hcond
    have hsub : (0 : ℚ) ≤ e.weekly_hours_worked.getD 0 - e.contract_hours.getD 0 :=
      sub_nonneg.mpr (le_of_lt (not_le.mp hcond))
    have hval : employeeSalaryFor e =
        (e.contract_hours.getD 0 * e.hourly_rate.getD 0 +
          (e.weekly_hours_worked.getD 0 - e.contract_hours.getD 0) *
            e.hourly_rate.getD 0 * (3/2)) * 4 := by
      simp [employeeSalaryFor, hcond]
    have hpos : (0 : ℚ) ≤
        (e.contract_hours.getD 0 * e.hourly_rate.getD 0 +
          (e.weekly_hours_worked.getD 0 - e.contract_hours.getD 0) *
            e.hourly_rate.getD 0 * (3/2)) * 4 := by
      refine mul_nonneg (add_nonneg (mul_nonneg hc0 hr0) ?_) (by norm_num)
      exact mul_nonneg (mul_nonneg hsub hr0) (by norm_num)
    simp [ratTrunc, hval, hpos]

/-- The roster state after running the calculator on `exRoster`. -/
def exUpdRoster : Roster :=
  [("SubA", [⟨some "Ann", some "Dev", some 2, some 3, some 4, some 24⟩,
             ⟨some "Ben", some "Ops", some 2, some 5, some 4, some 44⟩]),
   ("SubB", [])]

/-- Witness for C1 at `exRoster`, employee `exNoOT` (no overtime, salary
`floor(3 * 2 * 4) = 24`). -/
theorem C1_salary_formula_witness :
    ∃ entry, exMap[0]? = some entry ∧ entry.1 = "SubA" ∧
      ∃ s, entry.2[0]? = some s ∧
        (exNoOT.weekly_hours_worked.getD 0 ≤ exNoOT.contract_hours.getD 0 →
          s.monthly_salary =
            ⌊exNoOT.weekly_hours_worked.getD 0 * exNoOT.hourly_rate.getD 0 * 4⌋) ∧
        (¬ exNoOT.weekly_hours_worked.getD 0 ≤ exNoOT.contract_hours.getD 0 →
          s.monthly_salary =
            ⌊(exNoOT.contract_hours.getD 0 * exNoOT.hourly_rate.getD 0 +
                (exNoOT.weekly_hours_worked.getD 0 - exNoOT.contract_hours.getD 0) *
                  exNoOT.hourly_rate.getD 0 * (3/2)) * 4⌋) :=
  C1_salary_formula exRoster exUpdRoster exMap (by with_unfolding_all decide)
    0 ("SubA", [exNoOT, exOT]) (by with_unfolding_all decide)
    0 exNoOT (by with_unfolding_all decide)
    (by with_unfolding_all decide) (by with_unfolding_all decide)
    (by with_unfolding_all decide)

/-- Claim C6: a successful calculator run produces exactly one output record
per input employee record, at the same position within its subsidiary, with
`name` and `job` copied from the input; the output mapping's key sequence is
exactly the input roster's key sequence (insertion order, not sorted); and
the per-subsidiary aggregator's key sequence is an order-preserving
subsequence of its input's key sequence. -/
theorem C6_one_output_per_record_in_order {d d1 : Roster} {out : SalaryMap}
    (h : calculate_monthly_salaries d = .ok (d1, out)) :
    out.map Prod.fst = d.map Prod.fst ∧
    (∀ (i : ℕ) (p : String × List EmpRec), d[i]? = some p →
      ∃ q, out[i]? = some q ∧ q.1 = p.1 ∧ q.2.length = p.2.length ∧
        ∀ (j : ℕ) (e : EmpRec), p.2[j]? = some e →
          ∃ s, q.2[j]? = some s ∧ some s.name = e.name ∧ some s.job = e.job) ∧
    (∀ sm : SalaryMap,
      List.Sublist ((subsidiary_company_statistics sm).map Prod.fst) (sm.map Prod.fst)) := by
  obtain ⟨hlen1, hlen2, hpt⟩ := calculate_monthly_salaries_ok_spec h
  refine ⟨?_, ?_, ?_⟩
  · apply List.ext_getElem?
    intro i
    rw [List.getElem?_map, List.getElem?_map]
    cases hd : d[i]? with
    | none =>
      have : out[i]? = none := by
        rw [List.getElem?_eq_none_iff] at hd ⊢
        omega
      simp [this]
    | some p =>
      obtain ⟨p2, ss, -, hout, -⟩ := hpt i p hd
      simp [hout]
  · intro i p hp
    obtain ⟨p2, ss, -, hout, hpp⟩ := hpt i p hp
    obtain ⟨-, hslen, hpt2⟩ := processPersonnel_ok_spec hpp
    refine ⟨(p.1, ss), hout, rfl, hslen, ?_⟩
    intro j e he
    obtain ⟨n, jb, hn, hj, -, hss⟩ := hpt2 j e he
    exact ⟨⟨n, jb, ratTrunc (employeeSalaryFor e)⟩, hss, by rw [hn], by rw [hj]⟩
  · intro sm
    induction sm with
    | nil => simp [subsidiary_company_statistics]
    | cons p rest ih =>
      rw [subsidiary_company_statistics, List.filterMap_cons]
      by_cases hnil : salariesOf p.2 = []
      · simp only [hnil, if_true]
        exact List.Sublist.cons p.1 (by simpa [subsidiary_company_statistics] using ih)
      · simp only [hnil, if_false, List.map_cons]
        exact List.Sublist.cons₂ p.1 (by simpa [subsidiary_company_statistics] using ih)

/-- Witness for C6 at `exRoster`: the output keys equal the input keys, and
on `exMap` the aggregator's keys form a subsequence of the input keys. -/
theorem C6_one_output_per_record_in_order_witness :
    exMap.map Prod.fst = exRoster.map Prod.fst ∧
      List.Sublist ((subsidiary_company_statistics exMap).map Prod.fst) (exMap.map Prod.fst) := by
  have h := @C6_one_output_per_record_in_order exRoster exUpdRoster exMap
    (by with_unfolding_all decide)
  exact ⟨h.1, h.2.2 exMap⟩

/-- Counterexample to claim C7 as stated: running the calculator on a roster
holding `exNoOT` leaves the roster in a state where the employee dictionary
gained a `monthly_salary` entry (line 52 of the source mutates the input),
so the input record is not unchanged after the call. -/
theorem C7_counterexample :
    calculate_monthly_salaries [("S", [exNoOT])] =
        .ok ([("S", [⟨some "Ann", some "Dev", some 2, some 3, some 4, some 24⟩])],
          [("S", [⟨"Ann", "Dev", 24⟩])]) ∧
      (⟨some "Ann", some "Dev", some 2, some 3, some 4, some 24⟩ : EmpRec) ≠ exNoOT := by
  with_unfolding_all decide

/-- Claim C7 as amended: the calculator's only side effect on its input is
annotating each employee dictionary's `monthly_salary` entry with the
computed (untruncated) value; subsidiary keys, record order and every other
field (`name`, `job` and the wage fields) are unchanged, and the result is a
function of the input (the embedding is deterministic by construction). -/
theorem C7_mutation_only_annotates {d d1 : Roster} {out : SalaryMap}
    (h : calculate_monthly_salaries d = .ok (d1, out)) :
    d1.length = d.length ∧
      ∀ (i : ℕ) (p : String × List EmpRec), d[i]? = some p →
        ∃ p2, d1[i]? = some (p.1, p2) ∧ p2.length = p.2.length ∧
          ∀ (j : ℕ) (e : EmpRec), p.2[j]? = some e →
            p2[j]? = some { e with monthly_salary := some (employeeSalaryFor e) } := by
  obtain ⟨hlen1, -, hpt⟩ := calculate_monthly_salaries_ok_spec h
  refine ⟨hlen1, ?_⟩
  intro i p hp
  obtain ⟨p2, ss, hd1, -, hpp⟩ := hpt i p hp
  obtain ⟨hplen, -, hpt2⟩ := processPersonnel_ok_spec hpp
  refine ⟨p2, hd1, hplen, ?_⟩
  intro j e he
  obtain ⟨-, -, -, -, hp2, -⟩ := hpt2 j e he
  exact hp2

/-- Witness for C7 at `exRoster`: the returned roster state annotates
`exNoOT` with its computed salary and nothing else. -/
theorem C7_mutation_only_annotates_witness :
    exUpdRoster.length = exRoster.length ∧
      ∃ p2, exUpdRoster[0]? = some ("SubA", p2) ∧ p2.length = 2 ∧
        p2[0]? = some { exNoOT with monthly_salary := some (employeeSalaryFor exNoOT) } := by
  have h := @C7_mutation_only_annotates exRoster exUpdRoster exMap
    (by with_unfolding_all decide)
  obtain ⟨hlen, hpt⟩ := h
  obtain ⟨p2, h1, h2, h3⟩ := hpt 0 ("SubA", [exNoOT, exOT]) (by with_unfolding_all decide)
  exact ⟨hlen, p2, h1, h2, h3 0 exNoOT (by with_unfolding_all decide)⟩

/-- Counterexample to claim C8 as stated: a record with no `name` key makes
`calculate_monthly_salaries` fail (the `['name']` indexing at line 55 raises
`KeyError`) instead of defaulting the absent field. -/
theorem C8_counterexample :
    calculate_monthly_salaries [("S", [⟨none, some "Dev", some 2, some 3, some 4, none⟩])] =
      .error "KeyError" := by
  with_unfolding_all decide

/-- The inner loop succeeds whenever every record has `name` and `job`. -/
theorem processPersonnel_ok_of_keys {es : List EmpRec}
    (hk : ∀ e ∈ es, e.name.isSome ∧ e.job.isSome) :
    ∃ r, processPersonnel es = .ok r := by
  induction es with
  | nil => exact ⟨([], []), rfl⟩
  | cons e es ih =>
    obtain ⟨hn, hj⟩ := hk e (by simp)
    obtain ⟨n, hn1⟩ := Option.isSome_iff_exists.mp hn
    obtain ⟨jb, hj1⟩ := Option.isSome_iff_exists.mp hj
    obtain ⟨⟨es1, ss⟩, hr⟩ := ih (fun e1 he1 => hk e1 (by simp [he1]))
    have hpe : processEmployee e =
        .ok ({ e with monthly_salary := some (employeeSalaryFor e) },
          ⟨n, jb, ratTrunc (employeeSalaryFor e)⟩) :=
      processEmployee_ok_iff.mpr ⟨n, jb, hn1, hj1, rfl⟩
    exact ⟨_, by rw [processPersonnel, hpe, hr]⟩

/-- Claim C8 as amended: absent numeric wage fields default to 0 (they never
cause a failure), and the calculator raises nothing whenever every record
has `name` and `job`; both aggregators are total by construction.  A record
missing `name` or `job`, however, does make the calculator fail. -/
theorem C8_total_given_name_and_job {d : Roster}
    (hk : ∀ p ∈ d, ∀ e ∈ p.2, e.name.isSome ∧ e.job.isSome) :
    (∃ r, calculate_monthly_salaries d = .ok r) ∧
      ∀ (nm jb : Option String) (r w c ms : Option ℚ),
        employeeSalaryFor ⟨nm, jb, none, w, c, ms⟩ =
            employeeSalaryFor ⟨nm, jb, some 0, w, c, ms⟩ ∧
          employeeSalaryFor ⟨nm, jb, r, none, c, ms⟩ =
            employeeSalaryFor ⟨nm, jb, r, some 0, c, ms⟩ ∧
          employeeSalaryFor ⟨nm, jb, r, w, none, ms⟩ =
            employeeSalaryFor ⟨nm, jb, r, w, some 0, ms⟩ := by
  refine ⟨?_, fun nm jb r w c ms => ⟨rfl, rfl, rfl⟩⟩
  induction d with
  | nil => exact ⟨([], []), rfl⟩
  | cons p rest ih =>
    obtain ⟨nm, personnel⟩ := p
    obtain ⟨⟨p1, ss⟩, hpp⟩ :=
      processPersonnel_ok_of_keys (hk (nm, personnel) (by simp))
    obtain ⟨⟨rest1, out⟩, hrest⟩ := ih (fun q hq => hk q (by simp [hq]))
    exact ⟨_, by rw [calculate_monthly_salaries, hpp, hrest]⟩

/-- Witness for C8 at `exRoster`, whose records all carry `name` and `job`. -/
theorem C8_total_given_name_and_job_witness :
    ∃ r, calculate_monthly_salaries exRoster = .ok r :=
  (C8_total_given_name_and_job (by with_unfolding_all decide)).1
